import Mathlib

/-!
Verification of `fixed_income_monitor.py`, a fixed-income portfolio monitor:
discounted-cash-flow bond valuation, Macaulay/modified duration and DV01,
weight and sector aggregation, and a rule-based compliance flagging engine.

The script's float arithmetic is idealised by exact arithmetic: the risk,
aggregation and compliance stages use only field operations and integer
powers and are embedded over `ℚ` (computable); bond valuation discounts the
principal by `(1+ytm) ^ years_to_maturity` with a fractional exponent, so it
is embedded over `ℝ` with `Real.rpow`.  Python's `round` (round half to
even) is modelled by `pyRound` / `roundTo`.
-/

namespace FixedIncome

/-- Python's `round(x)` to an integer: round half to even (banker's
rounding). -/
def pyRound (x : ℚ) : ℤ :=
  if Int.fract x < 1 / 2 then ⌊x⌋
  else if 1 / 2 < Int.fract x then ⌊x⌋ + 1
  else if ⌊x⌋ % 2 = 0 then ⌊x⌋ else ⌊x⌋ + 1

/-- Python's `round(x, n)` (used by the script at 2 and 4 decimal places). -/
def roundTo (n : ℕ) (x : ℚ) : ℚ :=
  (pyRound (x * 10 ^ n) : ℚ) / 10 ^ n

/-- `macaulay_duration(coupon_rate, face_value, ytm, years_to_maturity)`
(fixed_income_monitor.py lines 115-128): `periods = max(1, int(round(m)))`
annual periods, an array of coupon cash flows whose last entry additionally
receives the face value, each discounted by `(1+ytm)^t`; the duration is
`Σ(t · PV_t) / Σ PV_t`, rounded to 4 decimal places.  `np.arange(1, periods+1)`
is `Finset.range periods` shifted by one. -/
def macaulay_duration (coupon_rate face_value ytm years_to_maturity : ℚ) : ℚ :=
  let periods : ℕ := (max 1 (pyRound years_to_maturity)).toNat
  let coupon : ℚ := coupon_rate * face_value
  let cashFlow : ℕ → ℚ := fun t => coupon + (if t = periods then face_value else 0)
  let pv : ℕ → ℚ := fun t => cashFlow t / (1 + ytm) ^ t
  roundTo 4 ((∑ i in Finset.range periods, ((i : ℚ) + 1) * pv (i + 1)) /
    (∑ i in Finset.range periods, pv (i + 1)))

/-- `modified_duration(mac_dur, ytm)` (lines 130-131). -/
def modified_duration (mac_dur ytm : ℚ) : ℚ :=
  roundTo 4 (mac_dur / (1 + ytm))

/-- One row of the holdings DataFrame after the valuation module.
`market_value` is the stored `price_per_bond × quantity` column; the risk,
aggregation and compliance modules below read that stored value (the pricing
function itself, which needs a real fractional exponent, is `price_per_bond`
further down). -/
structure Position where
  bond_id : String
  sector : String
  credit_rating : String
  face_value : ℚ
  coupon_rate : ℚ
  ytm : ℚ
  years_to_maturity : ℚ
  market_value : ℚ

/-- The `df["macaulay_duration"]` column (lines 133-137). -/
def bondMacaulay (p : Position) : ℚ :=
  macaulay_duration p.coupon_rate p.face_value p.ytm p.years_to_maturity

/-- The `df["modified_duration"]` column (lines 139-142). -/
def bondModified (p : Position) : ℚ :=
  modified_duration (bondMacaulay p) p.ytm

/-- The `df["dv01"]` column: `market_value * modified_duration * 0.0001`
(line 154). -/
def bondDV01 (p : Position) : ℚ :=
  p.market_value * bondModified p * 0.0001

/-- `total_portfolio_value = df["market_value"].sum()` (line 95). -/
def total_portfolio_value (ps : List Position) : ℚ :=
  (ps.map Position.market_value).sum

/-- One entry of `df["weight"] = round(df["market_value"] / total, 4)`
(line 96). -/
def weight (ps : List Position) (p : Position) : ℚ :=
  roundTo 4 (p.market_value / total_portfolio_value ps)

/-- The `df["weight"]` column (line 96). -/
def weights (ps : List Position) : List ℚ :=
  ps.map (weight ps)

/-- `portfolio_duration = (df["modified_duration"] * df["weight"]).sum()`
(line 146). -/
def portfolio_duration (ps : List Position) : ℚ :=
  (ps.map (fun p => bondModified p * weight ps p)).sum

/-- `portfolio_ytm = (df["ytm"] * df["weight"]).sum()` (line 147). -/
def portfolio_ytm (ps : List Position) : ℚ :=
  (ps.map (fun p => p.ytm * weight ps p)).sum

/-- The distinct sector keys of `df.groupby("sector")`, in first-seen order
(the claims about the allocation table are order-insensitive: pandas lists
group keys in sorted order, which is a permutation of this list). -/
def sector_keys (ps : List Position) : List String :=
  (ps.map Position.sector).dedup

/-- `df.groupby("sector")["market_value"].sum()` for one sector. -/
def sector_mv (ps : List Position) (s : String) : ℚ :=
  ((ps.filter (fun p => p.sector = s)).map Position.market_value).sum

/-- Descending order on allocation rows, `sort_values("allocation",
ascending=False)`. -/
def allocGE (a b : String × ℚ) : Prop := b.2 ≤ a.2

instance : DecidableRel allocGE :=
  fun a b => inferInstanceAs (Decidable (b.2 ≤ a.2))

instance : IsTotal (String × ℚ) allocGE :=
  ⟨fun a b => le_total b.2 a.2⟩

instance : IsTrans (String × ℚ) allocGE :=
  ⟨fun _ _ _ h1 h2 => le_trans h2 h1⟩

/-- `sector_allocation` (lines 159-167): group by sector, sum market value,
divide by total, round to 4 decimals, sort descending by allocation. -/
def sector_allocation (ps : List Position) : List (String × ℚ) :=
  List.insertionSort allocGE
    ((sector_keys ps).map
      (fun s => (s, roundTo 4 (sector_mv ps s / total_portfolio_value ps))))

/-- `MANDATE_LIMITS` (lines 216-224): the investment-policy thresholds. -/
structure MandateLimits where
  max_portfolio_duration : ℚ
  min_portfolio_duration : ℚ
  max_single_position_weight : ℚ
  max_sector_concentration : ℚ
  min_credit_quality_aaa_aa : ℚ
  max_dv01_per_position : ℚ
  min_ytm : ℚ

/-- The literal `MANDATE_LIMITS` dictionary of the script. -/
def MANDATE_LIMITS : MandateLimits :=
  ⟨5.0, 2.0, 0.35, 0.50, 0.60, 6000, 0.030⟩

/-- One surveillance flag record: the `check` name and the `status` string.
The `detail` f-string of the script is display formatting only and carries no
data read anywhere else, so it is elided from the embedding. -/
structure Flag where
  name : String
  status : String

/-- `aaa_aa_weight` (line 283): sum of the stored weights of positions rated
AAA or AA. -/
def aaa_aa_weight (ps : List Position) : ℚ :=
  ((ps.filter (fun p => p.credit_rating ∈ (["AAA", "AA"] : List String))).map
    (weight ps)).sum

/-- Check 1 (lines 230-247): portfolio duration against `[min, max]`; the
`if / elif / else` emits exactly one flag. -/
def check1 (d : ℚ) (L : MandateLimits) : Flag :=
  if d > L.max_portfolio_duration then ⟨"Portfolio Duration", "⚠ BREACH"⟩
  else if d < L.min_portfolio_duration then ⟨"Portfolio Duration", "⚠ BREACH"⟩
  else ⟨"Portfolio Duration", "✓ PASS"⟩

/-- Check 2 (lines 251-263): single-position weight, one flag per row. -/
def check2 (ps : List Position) (L : MandateLimits) (p : Position) : Flag :=
  if weight ps p > L.max_single_position_weight then
    ⟨"Position Concentration [" ++ p.bond_id ++ "]", "⚠ BREACH"⟩
  else ⟨"Position Concentration [" ++ p.bond_id ++ "]", "✓ PASS"⟩

/-- Check 3 (lines 267-279): sector concentration, one flag per allocation
row. -/
def check3 (L : MandateLimits) (r : String × ℚ) : Flag :=
  if r.2 > L.max_sector_concentration then
    ⟨"Sector Concentration [" ++ r.1 ++ "]", "⚠ BREACH"⟩
  else ⟨"Sector Concentration [" ++ r.1 ++ "]", "✓ PASS"⟩

/-- Check 4 (lines 285-296): AAA+AA credit-quality floor, a single flag. -/
def check4 (ps : List Position) (L : MandateLimits) : Flag :=
  if aaa_aa_weight ps < L.min_credit_quality_aaa_aa then
    ⟨"Credit Quality (AAA+AA floor)", "⚠ BREACH"⟩
  else ⟨"Credit Quality (AAA+AA floor)", "✓ PASS"⟩

/-- Check 5 (lines 300-312): per-position DV01 cap, one flag per row. -/
def check5 (L : MandateLimits) (p : Position) : Flag :=
  if bondDV01 p > L.max_dv01_per_position then
    ⟨"DV01 Limit [" ++ p.bond_id ++ "]", "⚠ BREACH"⟩
  else ⟨"DV01 Limit [" ++ p.bond_id ++ "]", "✓ PASS"⟩

/-- Check 6 (lines 316-327): minimum portfolio YTM, a single flag. -/
def check6 (ps : List Position) (L : MandateLimits) : Flag :=
  if portfolio_ytm ps < L.min_ytm then
    ⟨"Minimum Portfolio YTM", "⚠ BREACH"⟩
  else ⟨"Minimum Portfolio YTM", "✓ PASS"⟩

/-- The `flags` list (lines 226-327): the six checks append their findings in
fixed order. -/
def flags (ps : List Position) (L : MandateLimits) : List Flag :=
  [check1 (portfolio_duration ps) L]
    ++ ps.map (check2 ps L)
    ++ (sector_allocation ps).map (check3 L)
    ++ [check4 ps L]
    ++ ps.map (check5 L)
    ++ [check6 ps L]

/-- `breaches = flags_df[flags_df["status"] == "⚠ BREACH"]` (line 332). -/
def breaches (fl : List Flag) : List Flag :=
  fl.filter (fun f => f.status = "⚠ BREACH")

/-- `passes = flags_df[flags_df["status"] == "✓ PASS"]` (line 333). -/
def passes (fl : List Flag) : List Flag :=
  fl.filter (fun f => f.status = "✓ PASS")

/-! ### Bond valuation (real arithmetic)

`price_per_bond` (lines 80-89) discounts the principal by
`(1 + ytm) ** years_to_maturity` with a fractional exponent, so this part of
the pipeline is embedded over `ℝ` using `Real.rpow`. -/

/-- Python's `int(x)` on a float: truncation toward zero. -/
noncomputable def pyTrunc (x : ℝ) : ℤ :=
  if 0 ≤ x then ⌊x⌋ else ⌈x⌉

/-- Python's `round(x)` over `ℝ` (round half to even). -/
noncomputable def pyRoundR (x : ℝ) : ℤ :=
  if Int.fract x < 1 / 2 then ⌊x⌋
  else if 1 / 2 < Int.fract x then ⌊x⌋ + 1
  else if ⌊x⌋ % 2 = 0 then ⌊x⌋ else ⌊x⌋ + 1

/-- Python's `round(x, n)` over `ℝ`. -/
noncomputable def roundToR (n : ℕ) (x : ℝ) : ℝ :=
  (pyRoundR (x * 10 ^ n) : ℝ) / 10 ^ n

/-- `df["price_per_bond"]` (lines 80-89): coupons `coupon_rate * face_value`
at whole years `t ∈ range(1, int(years_to_maturity) + 1)`, discounted by
`(1+ytm) ** t`, plus the face value discounted by
`(1+ytm) ** years_to_maturity` (a real power), rounded to 2 decimals. -/
noncomputable def price_per_bond
    (coupon_rate face_value ytm years_to_maturity : ℝ) : ℝ :=
  roundToR 2
    ((∑ t in Finset.range (pyTrunc years_to_maturity).toNat,
        coupon_rate * face_value / (1 + ytm) ^ (t + 1))
      + face_value / (1 + ytm) ^ years_to_maturity)

/-- The valuation formula exactly as the specification words it: the sum over
whole years `t = 1..⌊m⌋` of `c·F/(1+y)^t`, plus `F/(1+y)^m`, rounded to two
decimal places. -/
noncomputable def priceSpec (c F y m : ℝ) : ℝ :=
  roundToR 2
    ((∑ t in Finset.range (⌊m⌋).toNat, c * F / (1 + y) ^ (t + 1))
      + F / (1 + y) ^ m)

/-- The Macaulay-duration formula exactly as the specification words it:
`N = max(1, round(m))` periods `t = 1..N`, cash flow `c·F` at each period
plus `F` added at period `N`, each discounted by `(1+y)^t`, and the duration
is `Σ(t · PV_t) / Σ PV_t`, rounded to 4 decimal places. -/
def macaulaySpec (c F y m : ℚ) : ℚ :=
  let N : ℕ := (max 1 (pyRound m)).toNat
  let cf : ℕ → ℚ := fun t => c * F + (if t = N then F else 0)
  roundTo 4
    ((∑ t in Finset.Icc 1 N, (t : ℚ) * (cf t / (1 + y) ^ t)) /
      (∑ t in Finset.Icc 1 N, cf t / (1 + y) ^ t))

/-! ### Concrete inputs used by witnesses and counterexamples -/

/-- A position whose bond has coupon 0, face value 100 and yield −200%;
its stored market value is 100. -/
def cexPos : Position :=
  ⟨"CEX-1Y", "Government", "AAA", 100, 0, -2, 1, 100⟩

/-- A position of market value 1. -/
def unitPos : Position :=
  ⟨"UNIT", "Government", "AAA", 1, 0, 0, 1, 1⟩

/-- A portfolio of 47 identical unit positions. -/
def ps47 : List Position :=
  List.replicate 47 unitPos

/-- A unit position in the named sector. -/
def secPos (s : String) : Position :=
  ⟨s, s, "AAA", 1, 0, 0, 1, 1⟩

/-- A portfolio of 47 unit positions in 47 distinct sectors. -/
def ps47s : List Position :=
  (List.range 47).map (fun i => secPos (toString i))

/-- A portfolio of 13 positions in 13 distinct sectors: twelve with market
value 7 and one with market value 129916, totalling 130000.  Each of the
twelve small allocations is 7/13 of a hundredth of a percent, which rounds
up, so the allocation table's values drift 0.0006 above 1. -/
def ps13 : List Position :=
  [⟨"B01", "SectorA", "AAA", 7, 0, 0, 1, 7⟩,
   ⟨"B02", "SectorB", "AAA", 7, 0, 0, 1, 7⟩,
   ⟨"B03", "SectorC", "AAA", 7, 0, 0, 1, 7⟩,
   ⟨"B04", "SectorD", "AAA", 7, 0, 0, 1, 7⟩,
   ⟨"B05", "SectorE", "AAA", 7, 0, 0, 1, 7⟩,
   ⟨"B06", "SectorF", "AAA", 7, 0, 0, 1, 7⟩,
   ⟨"B07", "SectorG", "AAA", 7, 0, 0, 1, 7⟩,
   ⟨"B08", "SectorH", "AAA", 7, 0, 0, 1, 7⟩,
   ⟨"B09", "SectorI", "AAA", 7, 0, 0, 1, 7⟩,
   ⟨"B10", "SectorJ", "AAA", 7, 0, 0, 1, 7⟩,
   ⟨"B11", "SectorK", "AAA", 7, 0, 0, 1, 7⟩,
   ⟨"B12", "SectorL", "AAA", 7, 0, 0, 1, 7⟩,
   ⟨"B13", "SectorM", "AAA", 129916, 0, 0, 1, 129916⟩]

/-- A representative two-year Treasury position. -/
def wPos : Position :=
  ⟨"UST-2Y", "Government", "AAA", 1000000, 9/200, 221/5000, 2, 1000000⟩

/-- A one-position portfolio. -/
def wps : List Position := [wPos]

/-! ### Rounding lemmas -/

theorem pyRound_intCast (z : ℤ) : pyRound (z : ℚ) = z := by
  unfold pyRound
  rw [if_pos]
  · exact Int.floor_intCast z
  · rw [Int.fract_intCast]; norm_num

theorem roundTo_intCast (n : ℕ) (z : ℤ) : roundTo n (z : ℚ) = z * 10 ^ n / 10 ^ n := by
  unfold roundTo
  rw [show ((z : ℚ) * 10 ^ n) = ((z * 10 ^ n : ℤ) : ℚ) by push_cast; ring,
    pyRound_intCast]

theorem roundTo_intCast' (n : ℕ) (z : ℤ) : roundTo n (z : ℚ) = z := by
  rw [roundTo_intCast]
  exact mul_div_cancel_right₀ _ (by positivity)

theorem pyRound_nonneg {x : ℚ} (hx : 0 ≤ x) : 0 ≤ pyRound x := by
  have h : 0 ≤ ⌊x⌋ := Int.floor_nonneg.mpr hx
  unfold pyRound
  split
  · exact h
  · split
    · omega
    · split <;> omega

theorem roundTo_nonneg (n : ℕ) {x : ℚ} (hx : 0 ≤ x) : 0 ≤ roundTo n x := by
  unfold roundTo
  apply div_nonneg _ (by positivity)
  exact_mod_cast pyRound_nonneg (by positivity)

theorem abs_pyRound_sub (x : ℚ) : |(pyRound x : ℚ) - x| ≤ 1 / 2 := by
  have hx : (⌊x⌋ : ℚ) = x - Int.fract x := by rw [Int.fract]; ring
  have h0 := Int.fract_nonneg x
  have h1 := Int.fract_lt_one x
  unfold pyRound
  rcases lt_trichotomy (Int.fract x) (1 / 2) with h | h | h
  · rw [if_pos h, hx, abs_le]
    constructor <;> linarith
  · rw [if_neg (by rw [h]; exact lt_irrefl _), if_neg (by rw [h]; exact lt_irrefl _)]
    split
    · rw [hx, abs_le]; constructor <;> linarith
    · push_cast
      rw [hx, abs_le]; constructor <;> linarith
  · rw [if_neg (by linarith), if_pos h]
    push_cast
    rw [hx, abs_le]
    constructor <;> linarith

theorem abs_roundTo_sub (n : ℕ) (x : ℚ) :
    |roundTo n x - x| ≤ 1 / (2 * 10 ^ n) := by
  have hpow : (0 : ℚ) < 10 ^ n := by positivity
  have key : roundTo n x - x = ((pyRound (x * 10 ^ n) : ℚ) - x * 10 ^ n) / 10 ^ n := by
    unfold roundTo
    field_simp
    ring
  rw [key, abs_div, abs_of_pos hpow]
  rw [div_le_div_iff₀ hpow (by positivity)]
  have := abs_pyRound_sub (x * 10 ^ n)
  nlinarith [abs_nonneg ((pyRound (x * 10 ^ n) : ℚ) - x * 10 ^ n)]

/-! ### List helper lemmas -/

theorem list_sum_map_div {α : Type} (l : List α) (g : α → ℚ) (d : ℚ) :
    (l.map (fun x => g x / d)).sum = (l.map g).sum / d := by
  induction l with
  | nil => simp
  | cons x l ih => simp [ih, add_div]

theorem list_abs_sum_sub_sum_le {α : Type} (l : List α) (f g : α → ℚ) (c : ℚ)
    (h : ∀ x ∈ l, |f x - g x| ≤ c) :
    |(l.map f).sum - (l.map g).sum| ≤ l.length * c := by
  induction l with
  | nil => simp
  | cons x l ih =>
    simp only [List.map_cons, List.sum_cons, List.length_cons]
    have h1 := h x (by simp)
    have h2 := ih (fun y hy => h y (by simp [hy]))
    have h3 : |f x + (l.map f).sum - (g x + (l.map g).sum)|
        ≤ |f x - g x| + |(l.map f).sum - (l.map g).sum| := by
      have := abs_add (f x - g x) ((l.map f).sum - (l.map g).sum)
      calc |f x + (l.map f).sum - (g x + (l.map g).sum)|
          = |(f x - g x) + ((l.map f).sum - (l.map g).sum)| := by ring_nf
        _ ≤ _ := this
    calc |f x + (l.map f).sum - (g x + (l.map g).sum)|
        ≤ |f x - g x| + |(l.map f).sum - (l.map g).sum| := h3
      _ ≤ c + l.length * c := add_le_add h1 h2
      _ = (l.length + 1 : ℕ) * c := by push_cast; ring

theorem sum_map_ite_key (S : List String) (hS : S.Nodup) (k : String) (c : ℚ) :
    (S.map (fun s => if k = s then c else 0)).sum = if k ∈ S then c else 0 := by
  induction S with
  | nil => simp
  | cons s S ih =>
    rcases List.nodup_cons.mp hS with ⟨hs, hS'⟩
    simp only [List.map_cons, List.sum_cons, ih hS', List.mem_cons]
    by_cases hk : k = s
    · subst hk
      rw [if_pos rfl, if_pos (Or.inl rfl), if_neg hs]
      ring
    · rw [if_neg hk]
      by_cases hk2 : k ∈ S
      · rw [if_pos hk2, if_pos (Or.inr hk2)]
        ring
      · rw [if_neg hk2, if_neg (by tauto)]
        ring

theorem ite_add_shared (c : Prop) [Decidable c] (a b : ℚ) :
    (if c then a + b else b) = (if c then a else 0) + b := by
  split <;> simp

theorem list_sum_map_add {α : Type} (l : List α) (u v : α → ℚ) :
    (l.map (fun x => u x + v x)).sum = (l.map u).sum + (l.map v).sum := by
  induction l with
  | nil => simp
  | cons x l ih => simp [ih]; ring

theorem sum_over_groups (l : List Position) (S : List String) (hS : S.Nodup) :
    (S.map (fun s => ((l.filter (fun p => p.sector = s)).map
        Position.market_value).sum)).sum
      = ((l.filter (fun p => p.sector ∈ S)).map Position.market_value).sum := by
  induction l with
  | nil => simp
  | cons p l ih =>
    have step : ∀ s : String,
        (((p :: l).filter (fun q => q.sector = s)).map Position.market_value).sum
          = (if p.sector = s then p.market_value else 0)
            + ((l.filter (fun q => q.sector = s)).map Position.market_value).sum := by
      intro s
      by_cases hps : p.sector = s
      · simp [List.filter_cons, hps]
      · simp [List.filter_cons, hps]
    calc (S.map (fun s => (((p :: l).filter (fun q => q.sector = s)).map
            Position.market_value).sum)).sum
        = (S.map (fun s => (if p.sector = s then p.market_value else 0)
            + ((l.filter (fun q => q.sector = s)).map Position.market_value).sum)).sum := by
          congr 1
          exact List.map_congr_left (fun s _ => step s)
      _ = (S.map (fun s => if p.sector = s then p.market_value else 0)).sum
            + (S.map (fun s => ((l.filter (fun q => q.sector = s)).map
                Position.market_value).sum)).sum := list_sum_map_add _ _ _
      _ = (if p.sector ∈ S then p.market_value else 0)
            + ((l.filter (fun q => q.sector ∈ S)).map Position.market_value).sum := by
          rw [sum_map_ite_key S hS, ih]
      _ = (((p :: l).filter (fun q => q.sector ∈ S)).map Position.market_value).sum := by
          by_cases hmem : p.sector ∈ S
          · simp [List.filter_cons, hmem]
          · simp [List.filter_cons, hmem]

theorem sector_groups_total (ps : List Position) :
    ((sector_keys ps).map (sector_mv ps)).sum = total_portfolio_value ps := by
  unfold sector_keys sector_mv total_portfolio_value
  rw [show (((ps.map Position.sector).dedup).map (fun s =>
      ((ps.filter (fun p => p.sector = s)).map Position.market_value).sum)).sum
      = ((ps.filter (fun p => p.sector ∈ (ps.map Position.sector).dedup)).map
          Position.market_value).sum from
    sum_over_groups ps _ ((ps.map Position.sector).nodup_dedup)]
  have hfull : ps.filter (fun p => p.sector ∈ (ps.map Position.sector).dedup) = ps := by
    rw [List.filter_eq_self]
    intro p hp
    simp only [decide_eq_true_eq, List.mem_dedup]
    exact List.mem_map_of_mem Position.sector hp
  rw [hfull]

/-! ### Risk-metric nonnegativity helpers -/

theorem macaulay_nonneg {c F y m : ℚ} (hc : 0 ≤ c) (hF : 0 ≤ F) (hy : -1 < y) :
    0 ≤ macaulay_duration c F y m := by
  have hy1 : (0 : ℚ) < 1 + y := by linarith
  have hcf : 0 ≤ c * F := mul_nonneg hc hF
  simp only [macaulay_duration]
  apply roundTo_nonneg
  apply div_nonneg
  · apply Finset.sum_nonneg
    intro i _
    apply mul_nonneg (by positivity)
    apply div_nonneg _ (le_of_lt (pow_pos hy1 _))
    split <;> linarith
  · apply Finset.sum_nonneg
    intro i _
    apply div_nonneg _ (le_of_lt (pow_pos hy1 _))
    split <;> linarith

theorem modified_duration_nonneg {mac y : ℚ} (hmac : 0 ≤ mac) (hy : -1 < y) :
    0 ≤ modified_duration mac y := by
  have hy1 : (0 : ℚ) < 1 + y := by linarith
  unfold modified_duration
  exact roundTo_nonneg _ (div_nonneg hmac hy1.le)

/-! ### Claim theorems -/

/-- C2: the Macaulay duration is computed over `N = max(1, round(m))` annual
periods, with cash flow `c·F` at each period `t = 1..N` plus `F` added at
period `N`, each discounted by `(1+y)^t`, and equals
`Σ(t · PV_t) / Σ PV_t`, rounded to 4 decimal places. -/
theorem macaulay_duration_matches_spec (c F y m : ℚ) :
    macaulay_duration c F y m = macaulaySpec c F y m := by
  have hsum : ∀ g : ℕ → ℚ,
      (∑ t in Finset.Icc 1 ((max 1 (pyRound m)).toNat), g t)
        = ∑ i in Finset.range ((max 1 (pyRound m)).toNat), g (i + 1) := by
    intro g
    rw [← Nat.Ico_succ_right, Finset.sum_Ico_eq_sum_range]
    simp [add_comm]
  simp only [macaulay_duration, macaulaySpec]
  rw [hsum, hsum]
  congr 1
  congr 1
  exact Finset.sum_congr rfl (fun i _ => by push_cast; ring)

/-- C3, counterexample: a zero-coupon bond with years-to-maturity 1/2 has
computed Macaulay duration 1 (the schedule uses `max(1, round(m))` whole
periods), not 1/2 as the claim states. -/
theorem macaulay_zero_coupon_counterexample :
    0 < (1 / 2 : ℚ) ∧ macaulay_duration 0 1000 (1 / 20) (1 / 2) ≠ 1 / 2 := by
  constructor
  · norm_num
  · norm_num [macaulay_duration, roundTo, pyRound, Int.fract,
      Finset.sum_range_succ, Finset.sum_range_zero]

/-- C3, amended: for a zero-coupon bond with positive face value, yield
above −100% and a whole-number maturity `m = k ≥ 1` years, the Macaulay
duration equals the years-to-maturity. -/
theorem macaulay_zero_coupon_integer_maturity (F y : ℚ) (k : ℕ)
    (hF : 0 < F) (hy : -1 < y) (hk : 1 ≤ k) :
    macaulay_duration 0 F y (k : ℚ) = (k : ℚ) := by
  have hy1 : (0 : ℚ) < 1 + y := by linarith
  have h1 : pyRound ((k : ℕ) : ℚ) = (k : ℤ) := by
    exact_mod_cast pyRound_intCast (k : ℤ)
  have h2 : (max 1 (pyRound ((k : ℕ) : ℚ))).toNat = k := by
    rw [h1, max_eq_right (by exact_mod_cast hk : (1 : ℤ) ≤ (k : ℤ))]
    exact Int.toNat_natCast k
  have hk1 : k - 1 + 1 = k := by omega
  have hstep : ∀ i ∈ Finset.range k, i ≠ k - 1 → ¬(i + 1 = k) := by
    intro i _ hne h
    exact hne (by omega)
  have hden : (∑ i in Finset.range k,
      (if i + 1 = k then F else 0) / (1 + y) ^ (i + 1)) = F / (1 + y) ^ k := by
    rw [Finset.sum_eq_single (k - 1)]
    · rw [if_pos hk1, hk1]
    · intro b hb hbne
      rw [if_neg (hstep b hb hbne), zero_div]
    · intro hk2
      exact absurd (Finset.mem_range.mpr (by omega)) hk2
  have hnum : (∑ i in Finset.range k,
      ((i : ℚ) + 1) * ((if i + 1 = k then F else 0) / (1 + y) ^ (i + 1)))
        = (k : ℚ) * (F / (1 + y) ^ k) := by
    rw [Finset.sum_eq_single (k - 1)]
    · rw [if_pos hk1, hk1]
      congr 1
      have hc : ((k - 1 : ℕ) : ℚ) = (k : ℚ) - 1 := by
        have h1k : (1 : ℕ) ≤ k := hk
        push_cast [h1k]
        ring
      rw [hc]; ring
    · intro b hb hbne
      rw [if_neg (hstep b hb hbne), zero_div, mul_zero]
    · intro hk2
      exact absurd (Finset.mem_range.mpr (by omega)) hk2
  simp only [macaulay_duration, h2, zero_mul, zero_add]
  rw [hden, hnum]
  have hpv : F / (1 + y) ^ k ≠ 0 :=
    div_ne_zero (ne_of_gt hF) (ne_of_gt (pow_pos hy1 k))
  rw [mul_div_cancel_right₀ _ hpv]
  exact_mod_cast roundTo_intCast' 4 (k : ℤ)

/-- C3, witness for the amended theorem at `F = 1000`, `y = 5%`, `k = 10`
(the specification's zero-coupon scenario). -/
theorem macaulay_zero_coupon_integer_maturity_witness :
    0 < (1000 : ℚ) ∧ (-1 : ℚ) < 1 / 20 ∧ 1 ≤ 10 ∧
      macaulay_duration 0 1000 (1 / 20) ((10 : ℕ) : ℚ) = ((10 : ℕ) : ℚ) :=
  ⟨by norm_num, by norm_num, by norm_num,
    macaulay_zero_coupon_integer_maturity 1000 (1 / 20) 10 (by norm_num)
      (by norm_num) (by norm_num)⟩

/-- C4: for every position, the modified-duration column equals the stored
Macaulay duration divided by `1 + ytm`, rounded to 4 decimal places,
whatever the bond's other parameters. -/
theorem modified_duration_ratio (p : Position) :
    bondModified p = roundTo 4 (bondMacaulay p / (1 + p.ytm)) := rfl

/-- C5, counterexample: a position with non-negative face value, coupon rate
and market value whose DV01 is negative (its yield is −200%, which the claim
does not exclude). -/
theorem dv01_nonneg_counterexample :
    0 ≤ cexPos.face_value ∧ 0 ≤ cexPos.coupon_rate ∧
      0 ≤ cexPos.market_value ∧ ¬ 0 ≤ bondDV01 cexPos := by
  refine ⟨by norm_num [cexPos], by norm_num [cexPos], by norm_num [cexPos], ?_⟩
  have h : bondDV01 cexPos = -1 / 100 := by
    norm_num [bondDV01, bondModified, bondMacaulay, cexPos, modified_duration,
      macaulay_duration, roundTo, pyRound, Int.fract,
      Finset.sum_range_succ, Finset.sum_range_zero]
  rw [h]
  norm_num

/-- C5, amended: DV01 is `market_value × modified_duration × 0.0001`, and is
non-negative whenever face value, coupon rate and market value are
non-negative and the yield exceeds −100%. -/
theorem dv01_formula_and_nonneg (p : Position) :
    bondDV01 p = p.market_value * bondModified p * 0.0001 ∧
      (0 ≤ p.face_value → 0 ≤ p.coupon_rate → 0 ≤ p.market_value →
        -1 < p.ytm → 0 ≤ bondDV01 p) := by
  refine ⟨rfl, fun hF hc hmv hy => ?_⟩
  have hmac : 0 ≤ bondMacaulay p := macaulay_nonneg hc hF hy
  have hmod : 0 ≤ bondModified p := modified_duration_nonneg hmac hy
  exact mul_nonneg (mul_nonneg hmv hmod) (by norm_num)

/-- C5, witness at a representative Treasury position. -/
theorem dv01_formula_and_nonneg_witness :
    0 ≤ wPos.face_value ∧ 0 ≤ wPos.coupon_rate ∧ 0 ≤ wPos.market_value ∧
      (-1 : ℚ) < wPos.ytm ∧ 0 ≤ bondDV01 wPos :=
  ⟨by norm_num [wPos], by norm_num [wPos], by norm_num [wPos], by norm_num [wPos],
    (dv01_formula_and_nonneg wPos).2 (by norm_num [wPos]) (by norm_num [wPos])
      (by norm_num [wPos]) (by norm_num [wPos])⟩

/-! ### Aggregation lemmas shared by the weight and sector claims -/

theorem map_fst_pairs (l : List String) (g : String → ℚ) :
    (l.map (fun s => (s, g s))).map Prod.fst = l := by
  induction l with
  | nil => rfl
  | cons s l ih => simp [ih]

theorem sector_allocation_snd_sum (ps : List Position) :
    ((sector_allocation ps).map Prod.snd).sum
      = ((sector_keys ps).map
          (fun s => roundTo 4 (sector_mv ps s / total_portfolio_value ps))).sum := by
  have hperm := (List.perm_insertionSort allocGE
      ((sector_keys ps).map
        (fun s => (s, roundTo 4 (sector_mv ps s / total_portfolio_value ps))))).map
      Prod.snd
  rw [sector_allocation, hperm.sum_eq, List.map_map]
  rfl

/-- C6, counterexample: 47 equal positions; each weight rounds
`1/47 = 0.021276…` up to `0.0213`, so the weights sum to `1.0011`, which is
not within `±0.0005` of 1. -/
theorem weights_sum_tolerance_counterexample :
    0 < total_portfolio_value ps47 ∧ ¬ |(weights ps47).sum - 1| ≤ 0.0005 := by
  have h1 : total_portfolio_value (List.replicate 47 unitPos) = 47 := by
    norm_num [total_portfolio_value, List.map_replicate, List.sum_replicate, unitPos]
  constructor
  · rw [show total_portfolio_value ps47 = 47 from h1]
    norm_num
  · have h2 : weight (List.replicate 47 unitPos) unitPos = 213 / 10000 := by
      rw [weight, show total_portfolio_value (List.replicate 47 unitPos) = 47 from h1]
      norm_num [roundTo, pyRound, Int.fract, unitPos]
    rw [weights, ps47, List.map_replicate, h2, List.sum_replicate]
    have h3 : (47 : ℕ) • (213 / 10000 : ℚ) - 1 = 11 / 10000 := by norm_num
    rw [h3, abs_of_pos (by norm_num)]
    norm_num

/-- C6, amended: each weight is the market value over the total, rounded to
4 decimal places with no renormalisation, and the weights sum lies within
`±(n × 0.00005)` of 1 for `n` positions (each rounding moves a weight by at
most half of `10⁻⁴`; with more than a dozen positions the drift can exceed
the `±0.0005` the claim states, as the counterexample shows). -/
theorem weights_sum_bound (ps : List Position)
    (h : 0 < total_portfolio_value ps) :
    weights ps
        = ps.map (fun p => roundTo 4 (p.market_value / total_portfolio_value ps)) ∧
      |(weights ps).sum - 1| ≤ (ps.length : ℚ) * (1 / 20000) := by
  refine ⟨rfl, ?_⟩
  have hT : total_portfolio_value ps ≠ 0 := ne_of_gt h
  have h1 : (ps.map (fun p => p.market_value / total_portfolio_value ps)).sum = 1 := by
    rw [list_sum_map_div]
    exact div_self hT
  have h2 := list_abs_sum_sub_sum_le ps (weight ps)
      (fun p => p.market_value / total_portfolio_value ps) (1 / 20000)
      (fun p _ => by
        rw [weight]
        exact (abs_roundTo_sub 4 _).trans (by norm_num))
  rw [h1] at h2
  exact h2

/-- C6, witness for the amended theorem at a one-position portfolio. -/
theorem weights_sum_bound_witness :
    0 < total_portfolio_value wps ∧
      (weights wps
          = wps.map (fun p => roundTo 4 (p.market_value / total_portfolio_value wps)) ∧
        |(weights wps).sum - 1| ≤ (wps.length : ℚ) * (1 / 20000)) := by
  have h : 0 < total_portfolio_value wps := by
    norm_num [total_portfolio_value, wps, wPos]
  exact ⟨h, weights_sum_bound wps h⟩

/-- C7, counterexample: 13 sectors (twelve tiny, one large) whose rounded
allocations sum to `1.0006`, outside `±0.0005` of 1. -/
theorem sector_allocation_sum_counterexample :
    0 < total_portfolio_value ps13 ∧
      ¬ |((sector_allocation ps13).map Prod.snd).sum - 1| ≤ 0.0005 := by
  have htot : total_portfolio_value ps13 = 130000 := by
    norm_num [total_portfolio_value, ps13]
  constructor
  · rw [htot]; norm_num
  · have hmap : ps13.map Position.sector
        = ["SectorA", "SectorB", "SectorC", "SectorD", "SectorE", "SectorF",
           "SectorG", "SectorH", "SectorI", "SectorJ", "SectorK", "SectorL",
           "SectorM"] := rfl
    have hkeys : sector_keys ps13
        = ["SectorA", "SectorB", "SectorC", "SectorD", "SectorE", "SectorF",
           "SectorG", "SectorH", "SectorI", "SectorJ", "SectorK", "SectorL",
           "SectorM"] := by
      rw [sector_keys, hmap]
      exact List.dedup_eq_self.mpr (by decide)
    have hsmall : ∀ s : String, sector_mv ps13 s = 7 →
        roundTo 4 (sector_mv ps13 s / total_portfolio_value ps13) = 1 / 10000 := by
      intro s hs
      rw [hs, htot]
      norm_num [roundTo, pyRound, Int.fract]
    have hbig : roundTo 4 (sector_mv ps13 "SectorM" / total_portfolio_value ps13)
        = 9994 / 10000 := by
      rw [show sector_mv ps13 "SectorM" = 129916 from by simp +decide [sector_mv, ps13, List.filter_cons], htot]
      norm_num [roundTo, pyRound, Int.fract]
    rw [sector_allocation_snd_sum, hkeys]
    simp only [List.map_cons, List.map_nil, List.sum_cons, List.sum_nil]
    rw [hsmall "SectorA" (by simp +decide [sector_mv, ps13, List.filter_cons]),
      hsmall "SectorB" (by simp +decide [sector_mv, ps13, List.filter_cons]),
      hsmall "SectorC" (by simp +decide [sector_mv, ps13, List.filter_cons]),
      hsmall "SectorD" (by simp +decide [sector_mv, ps13, List.filter_cons]),
      hsmall "SectorE" (by simp +decide [sector_mv, ps13, List.filter_cons]),
      hsmall "SectorF" (by simp +decide [sector_mv, ps13, List.filter_cons]),
      hsmall "SectorG" (by simp +decide [sector_mv, ps13, List.filter_cons]),
      hsmall "SectorH" (by simp +decide [sector_mv, ps13, List.filter_cons]),
      hsmall "SectorI" (by simp +decide [sector_mv, ps13, List.filter_cons]),
      hsmall "SectorJ" (by simp +decide [sector_mv, ps13, List.filter_cons]),
      hsmall "SectorK" (by simp +decide [sector_mv, ps13, List.filter_cons]),
      hsmall "SectorL" (by simp +decide [sector_mv, ps13, List.filter_cons]), hbig]
    have h6 : (1 / 10000 : ℚ) + (1 / 10000 + (1 / 10000 + (1 / 10000 + (1 / 10000 +
        (1 / 10000 + (1 / 10000 + (1 / 10000 + (1 / 10000 + (1 / 10000 +
        (1 / 10000 + (1 / 10000 + (9994 / 10000 + 0)))))))))))) - 1 = 6 / 10000 := by
      norm_num
    rw [h6, abs_of_pos (by norm_num)]
    norm_num

/-- C7, amended: the sector-allocation table's keys are exactly the distinct
sectors of the input, the table is sorted descending by allocation, and its
values sum to within `±(k × 0.00005)` of 1 for `k` sectors (the flat
`±0.0005` the claim states fails once there are more than a dozen sectors,
as the counterexample shows). -/
theorem sector_allocation_props (ps : List Position)
    (h : 0 < total_portfolio_value ps) :
    ((sector_allocation ps).map Prod.fst).Perm (sector_keys ps) ∧
      List.Sorted allocGE (sector_allocation ps) ∧
      |((sector_allocation ps).map Prod.snd).sum - 1|
        ≤ ((sector_keys ps).length : ℚ) * (1 / 20000) := by
  have hT : total_portfolio_value ps ≠ 0 := ne_of_gt h
  refine ⟨?_, ?_, ?_⟩
  · have hperm := (List.perm_insertionSort allocGE
        ((sector_keys ps).map
          (fun s => (s, roundTo 4 (sector_mv ps s / total_portfolio_value ps))))).map
        Prod.fst
    rw [map_fst_pairs] at hperm
    exact hperm
  · exact List.sorted_insertionSort allocGE _
  · rw [sector_allocation_snd_sum]
    have h1 : ((sector_keys ps).map
        (fun s => sector_mv ps s / total_portfolio_value ps)).sum = 1 := by
      rw [list_sum_map_div, sector_groups_total]
      exact div_self hT
    have h2 := list_abs_sum_sub_sum_le (sector_keys ps)
      (fun s => roundTo 4 (sector_mv ps s / total_portfolio_value ps))
      (fun s => sector_mv ps s / total_portfolio_value ps) (1 / 20000)
      (fun s _ => (abs_roundTo_sub 4 _).trans (by norm_num))
    rw [h1] at h2
    exact h2

/-- C7, witness for the amended theorem at a one-position portfolio. -/
theorem sector_allocation_props_witness :
    0 < total_portfolio_value wps ∧
      (((sector_allocation wps).map Prod.fst).Perm (sector_keys wps) ∧
        List.Sorted allocGE (sector_allocation wps) ∧
        |((sector_allocation wps).map Prod.snd).sum - 1|
          ≤ ((sector_keys wps).length : ℚ) * (1 / 20000)) := by
  have h : 0 < total_portfolio_value wps := by
    norm_num [total_portfolio_value, wps, wPos]
  exact ⟨h, sector_allocation_props wps h⟩

/-! ### Compliance-engine lemmas -/

theorem breach_ne_pass : ¬ ("⚠ BREACH" : String) = "✓ PASS" := by decide

theorem pass_ne_breach : ¬ ("✓ PASS" : String) = "⚠ BREACH" := by decide

theorem check1_breach_iff (d : ℚ) (L : MandateLimits) :
    (check1 d L).status = "⚠ BREACH" ↔
      (d > L.max_portfolio_duration ∨ d < L.min_portfolio_duration) := by
  unfold check1
  split
  · next h => simp [h]
  · split
    · next _ h2 => simp [h2]
    · next h1 h2 => simp [h1, h2, pass_ne_breach]

theorem check1_pass_iff (d : ℚ) (L : MandateLimits) :
    (check1 d L).status = "✓ PASS" ↔
      (¬ d > L.max_portfolio_duration ∧ ¬ d < L.min_portfolio_duration) := by
  unfold check1
  split
  · next h => simp [h, breach_ne_pass]
  · split
    · next _ h2 => simp [h2, breach_ne_pass]
    · next h1 h2 => simp [h1, h2]

theorem check1_status_cases (d : ℚ) (L : MandateLimits) :
    (check1 d L).status = "⚠ BREACH" ∨ (check1 d L).status = "✓ PASS" := by
  unfold check1
  split
  · exact Or.inl rfl
  · split
    · exact Or.inl rfl
    · exact Or.inr rfl

theorem check2_status_cases (ps : List Position) (L : MandateLimits) (p : Position) :
    (check2 ps L p).status = "⚠ BREACH" ∨ (check2 ps L p).status = "✓ PASS" := by
  unfold check2
  split
  · exact Or.inl rfl
  · exact Or.inr rfl

theorem check3_status_cases (L : MandateLimits) (r : String × ℚ) :
    (check3 L r).status = "⚠ BREACH" ∨ (check3 L r).status = "✓ PASS" := by
  unfold check3
  split
  · exact Or.inl rfl
  · exact Or.inr rfl

theorem check4_status_cases (ps : List Position) (L : MandateLimits) :
    (check4 ps L).status = "⚠ BREACH" ∨ (check4 ps L).status = "✓ PASS" := by
  unfold check4
  split
  · exact Or.inl rfl
  · exact Or.inr rfl

theorem check5_status_cases (L : MandateLimits) (p : Position) :
    (check5 L p).status = "⚠ BREACH" ∨ (check5 L p).status = "✓ PASS" := by
  unfold check5
  split
  · exact Or.inl rfl
  · exact Or.inr rfl

theorem check6_status_cases (ps : List Position) (L : MandateLimits) :
    (check6 ps L).status = "⚠ BREACH" ∨ (check6 ps L).status = "✓ PASS" := by
  unfold check6
  split
  · exact Or.inl rfl
  · exact Or.inr rfl

theorem flags_status_valid (ps : List Position) (L : MandateLimits) :
    ∀ f ∈ flags ps L, f.status = "⚠ BREACH" ∨ f.status = "✓ PASS" := by
  intro f hf
  rw [flags] at hf
  rcases List.mem_append.mp hf with h | h
  · rcases List.mem_append.mp h with h | h
    · rcases List.mem_append.mp h with h | h
      · rcases List.mem_append.mp h with h | h
        · rcases List.mem_append.mp h with h | h
          · rw [List.mem_singleton.mp h]
            exact check1_status_cases _ _
          · obtain ⟨p, _, rfl⟩ := List.mem_map.mp h
            exact check2_status_cases _ _ _
        · obtain ⟨r, _, rfl⟩ := List.mem_map.mp h
          exact check3_status_cases _ _
      · rw [List.mem_singleton.mp h]
        exact check4_status_cases _ _
    · obtain ⟨p, _, rfl⟩ := List.mem_map.mp h
      exact check5_status_cases _ _
  · rw [List.mem_singleton.mp h]
    exact check6_status_cases _ _

theorem filter_length_partition (l : List Flag)
    (h : ∀ f ∈ l, f.status = "⚠ BREACH" ∨ f.status = "✓ PASS") :
    (breaches l).length + (passes l).length = l.length := by
  unfold breaches passes
  induction l with
  | nil => rfl
  | cons f l ih =>
    have hf := h f (List.mem_cons_self f l)
    have ih2 := ih (fun g hg => h g (List.mem_cons_of_mem f hg))
    rcases hf with hf | hf
    · rw [List.filter_cons, List.filter_cons]
      simp only [hf]
      rw [if_pos (by decide), if_neg (by decide)]
      simp only [List.length_cons]
      omega
    · rw [List.filter_cons, List.filter_cons]
      simp only [hf]
      rw [if_neg (by decide), if_pos (by decide)]
      simp only [List.length_cons]
      omega

/-- C8: the portfolio-duration rule emits exactly one finding, which is
always the first element of the flags list; its status is BREACH exactly
when the portfolio duration exceeds the max limit or falls below the min
limit and PASS otherwise; and when the limits satisfy min ≤ max the two
breach conditions cannot hold simultaneously. -/
theorem duration_check_first_and_exclusive (ps : List Position)
    (L : MandateLimits) :
    flags ps L
        = check1 (portfolio_duration ps) L ::
            (ps.map (check2 ps L) ++ (sector_allocation ps).map (check3 L)
              ++ [check4 ps L] ++ ps.map (check5 L) ++ [check6 ps L]) ∧
      ((check1 (portfolio_duration ps) L).status = "⚠ BREACH" ↔
        (portfolio_duration ps > L.max_portfolio_duration ∨
          portfolio_duration ps < L.min_portfolio_duration)) ∧
      ((check1 (portfolio_duration ps) L).status = "✓ PASS" ↔
        (¬ portfolio_duration ps > L.max_portfolio_duration ∧
          ¬ portfolio_duration ps < L.min_portfolio_duration)) ∧
      (L.min_portfolio_duration ≤ L.max_portfolio_duration →
        ¬ (portfolio_duration ps > L.max_portfolio_duration ∧
            portfolio_duration ps < L.min_portfolio_duration)) := by
  refine ⟨?_, check1_breach_iff _ _, check1_pass_iff _ _, ?_⟩
  · simp [flags]
  · intro hminmax ⟨hgt, hlt⟩
    exact absurd (lt_trans (lt_of_lt_of_le hlt hminmax) hgt) (lt_irrefl _)

/-- C8, witness at the empty portfolio and the script's literal mandate
limits. -/
theorem duration_check_first_and_exclusive_witness :
    MANDATE_LIMITS.min_portfolio_duration ≤ MANDATE_LIMITS.max_portfolio_duration ∧
      ¬ (portfolio_duration [] > MANDATE_LIMITS.max_portfolio_duration ∧
          portfolio_duration [] < MANDATE_LIMITS.min_portfolio_duration) :=
  ⟨by norm_num [MANDATE_LIMITS],
    (duration_check_first_and_exclusive [] MANDATE_LIMITS).2.2.2
      (by norm_num [MANDATE_LIMITS])⟩

/-- C10: every finding's status is exactly PASS or BREACH, and the breach
count plus the pass count equals the total number of findings. -/
theorem flags_status_partition (ps : List Position) (L : MandateLimits) :
    (∀ f ∈ flags ps L, f.status = "⚠ BREACH" ∨ f.status = "✓ PASS") ∧
      (breaches (flags ps L)).length + (passes (flags ps L)).length
        = (flags ps L).length :=
  ⟨flags_status_valid ps L, filter_length_partition _ (flags_status_valid ps L)⟩

/-! ### Valuation lemmas -/

theorem pyRoundR_intCast (z : ℤ) : pyRoundR (z : ℝ) = z := by
  unfold pyRoundR
  rw [if_pos]
  · exact Int.floor_intCast z
  · rw [Int.fract_intCast]; norm_num

theorem pyTrunc_toNat_floor (m : ℝ) : (pyTrunc m).toNat = (⌊m⌋).toNat := by
  unfold pyTrunc
  split
  · rfl
  · next h =>
    push_neg at h
    have h1 : ⌈m⌉ ≤ 0 := by
      rw [Int.ceil_le]
      exact_mod_cast h.le
    have h2 : ⌊m⌋ ≤ ⌈m⌉ := Int.floor_le_ceil m
    omega

/-- C1: the price per unit is the sum over whole years `t = 1..⌊m⌋` of
`c·F/(1+y)^t` plus `F/(1+y)^m`, rounded to 2 decimal places; in particular,
for `m < 1` the coupon sum is empty and the price is the single discounted
principal, rounded to 2 decimal places. -/
theorem price_per_bond_matches_spec (c F y m : ℝ) :
    price_per_bond c F y m = priceSpec c F y m ∧
      (m < 1 → price_per_bond c F y m = roundToR 2 (F / (1 + y) ^ m)) := by
  constructor
  · unfold price_per_bond priceSpec
    rw [pyTrunc_toNat_floor]
  · intro hm
    have h0 : (⌊m⌋).toNat = 0 := by
      have : ⌊m⌋ < 1 := Int.floor_lt.mpr (by exact_mod_cast hm)
      omega
    unfold price_per_bond
    rw [pyTrunc_toNat_floor, h0]
    simp

/-- C1, witness: a six-month bond, whose price is the discounted principal
alone. -/
theorem price_per_bond_matches_spec_witness :
    (1 / 2 : ℝ) < 1 ∧
      price_per_bond (1 / 20) 100 (1 / 20) (1 / 2)
        = roundToR 2 (100 / (1 + 1 / 20) ^ (1 / 2 : ℝ)) :=
  ⟨by norm_num,
    (price_per_bond_matches_spec (1 / 20) 100 (1 / 20) (1 / 2)).2 (by norm_num)⟩

/-- C9 (code bug): `price_per_bond` performs no input validation.  At the
invalid input `face_value = -1000 ≤ 0` (coupon 5%, yield 5%, two years) it
returns the price −1000.00 instead of failing with a `ValuationError`. -/
theorem price_per_bond_total_on_invalid_input :
    price_per_bond (1 / 20) (-1000) (1 / 20) 2 = -1000 := by
  have htr : (pyTrunc (2 : ℝ)).toNat = 2 := by
    unfold pyTrunc
    have h2 : ⌊(2 : ℝ)⌋ = 2 := by norm_num
    rw [if_pos (by norm_num : (0 : ℝ) ≤ 2), h2]
    rfl
  unfold price_per_bond
  rw [htr, show ((2 : ℝ)) = ((2 : ℕ) : ℝ) by norm_num, Real.rpow_natCast]
  norm_num [Finset.sum_range_succ, Finset.sum_range_one]
  unfold roundToR
  rw [show ((-1000 : ℝ) * 10 ^ 2) = (((-100000 : ℤ)) : ℝ) by norm_num,
    pyRoundR_intCast]
  norm_num

end FixedIncome
